import Mathlib

/-!
Shallow embedding of the rusty_bars spectrum visualizer
(src/analyze_spectrum.rs and src/visualizer.rs) together with proofs about
the properties stated in the design document.

Modelling conventions:
* Machine floating-point (f64) values are modelled as real numbers; the
  concrete numeric examples below only involve arithmetic that is exact in
  binary floating point as well.  The scaling routine, which both source
  files duplicate verbatim (once on Vec of f64, once on a slice of f64),
  is embedded once, generically over a DivisionRing, and instantiated at
  the rationals for concrete evaluation and at the reals inside the
  renderer.
* A Rust panic (failed assert, integer division by zero, out-of-bounds
  index, or an overflow-checked usize subtraction that underflows) is
  modelled by the value none of an Option type.
* The f64 value negative infinity produced by log10(0.0) is modelled by
  bot in EReal.
* The FFTW plan handle and the ncurses window are external resources; the
  transform itself and the outcomes of terminal writes are passed in as
  parameters.
-/

namespace RustyBars

/-! ### BandScaler: scale_fft_output
(src/analyze_spectrum.rs lines 100-129, src/visualizer.rs lines 28-57)

The body of the for-loop over the input: on each element, if the running
count has reached band_size the average is pushed and the accumulator is
reset (the current element is neither accumulated nor revisited);
otherwise the element is added to the running sum.  After the loop one
more average is pushed when the leftover count reached band_size. -/
def scaleLoop (α : Type) [DivisionRing α] (band_size : Nat) :
    List α → Nat → α → List α
  | [], temp_count, sum =>
      if band_size ≤ temp_count then [sum / (temp_count : α)] else []
  | x :: rest, temp_count, sum =>
      if band_size ≤ temp_count then
        (sum / (temp_count : α)) :: scaleLoop α band_size rest 0 0
      else
        scaleLoop α band_size rest (temp_count + 1) (sum + x)

/-- `scale_fft_output(input, new_len)`.  The early return clones the input
when `new_len >= input.len()`.  Otherwise `band_size = input.len() /
new_len`; with `new_len = 0` the Rust division panics (modelled as none),
and the `assert!(band_size > 0)` failure is likewise modelled as none
(that branch is unreachable, see scale_band_size_pos below). -/
def scale_fft_output (α : Type) [DivisionRing α] (input : List α)
    (new_len : Nat) : Option (List α) :=
  if input.length ≤ new_len then some input
  else if new_len = 0 then none
  else
    let band_size : Nat := input.length / new_len
    if band_size = 0 then none
    else some (scaleLoop α band_size input 0 0)

/-- What the loop actually computes: the mean of the first `b` elements,
after which one element (the one whose arrival triggers the push) is
discarded, recursively; a trailing group contributes one final mean
exactly when it has exactly `b` elements. -/
def scaleBands (α : Type) [DivisionRing α] (b : Nat) (l : List α) : List α :=
  if _h1 : l.length < b then []
  else if _h2 : l.length = b then [l.sum / (b : α)]
  else ((l.take b).sum / (b : α)) :: scaleBands α b (l.drop (b + 1))
termination_by l.length
decreasing_by
  simp only [List.length_drop]
  omega

/-! ### SpectrumTransform: AudioFFT (src/analyze_spectrum.rs lines 60-249)

The FFTW plan is an external resource bound to the input/output buffers;
the transform itself is out of scope, so execute takes the external
fftw_execute action as a function from the input buffer to the
overwritten output buffer. -/

/-- The complex output type of the real-to-complex transform. -/
structure FftwComplex where
  re : ℝ
  im : ℝ

/-- Magnitude: `((re * re) + (im * im)).sqrt()`. -/
noncomputable def FftwComplex.abs (self : FftwComplex) : ℝ :=
  Real.sqrt (self.re * self.re + self.im * self.im)

/-- The state of AudioFFT: channel count, the bound input buffer (length
n), the bound complex output buffer (length n/2), and the transform size
n.  The plan field is an external handle and is not part of the state. -/
structure AudioFFT where
  channels : Nat
  input : List ℝ
  output : List FftwComplex
  n : Nat

/-- `get_buf_size`: `n * BYTES_PER_SAMPLE * channels` with
BYTES_PER_SAMPLE = 2. -/
def AudioFFT.get_buf_size (self : AudioFFT) : Nat :=
  self.n * 2 * self.channels

/-- Consecutive byte pairs of the buffer; a trailing odd byte is dropped,
as in the reinterpretation of `buffer.len()/2` 16-bit values. -/
def bytePairs : List Nat → List (Nat × Nat)
  | lo :: hi :: rest => (lo, hi) :: bytePairs rest
  | _ => []

/-- A little-endian (native order on the target) signed 16-bit value from
two bytes. -/
def i16_of_le_bytes (lo hi : Nat) : Int :=
  let v : Nat := lo % 256 + 256 * (hi % 256)
  if v < 32768 then (v : Int) else (v : Int) - 65536

/-- `get_floats`: reinterprets the byte buffer as i16 values and widens
each to floating point (exact, since every i16 is exactly representable). -/
noncomputable def get_floats (buffer : List Nat) : List ℝ :=
  (bytePairs buffer).map (fun p => ((i16_of_le_bytes p.1 p.2 : Int) : ℝ))

/-- `split_channels`: sample at flat index i goes to channel i mod
channels, preserving relative order. -/
noncomputable def split_channels (channels : Nat) (all_floats : List ℝ) :
    List (List ℝ) :=
  (List.range channels).map (fun c =>
    (all_floats.enum.filter (fun p => p.1 % channels == c)).map (fun p => p.2))

/-- `load_channel`: overwrites the first `channel_data.len()` positions of
the input buffer with the channel data (positions beyond it keep their
old values; the case of channel data longer than the buffer would panic
in Rust and is unreachable for well-sized frames). -/
def load_channel : List ℝ → List ℝ → List ℝ
  | input, [] => input
  | [], _ :: _ => []
  | _ :: input_rest, v :: ch_rest => v :: load_channel input_rest ch_rest

/-- `do_hanning_window`: multiplies element i by
`0.5 * (1 - cos(2 pi i / (len - 1)))` (len - 1 is the usize subtraction,
which would underflow for an empty channel; unreachable since n is a
power of two). -/
noncomputable def do_hanning_window (channel_data : List ℝ) : List ℝ :=
  channel_data.enum.map (fun p =>
    p.2 * (0.5 * (1 - Real.cos (2 * Real.pi * (p.1 : ℝ) /
      ((channel_data.length - 1 : Nat) : ℝ)))))

/-- The f64 log10 on the nonnegative magnitudes: negative infinity (bot in
EReal) at 0, the real logarithm elsewhere. -/
noncomputable def f64_log10 (x : ℝ) : EReal :=
  if x = 0 then ⊥ else ((Real.logb 10 x : ℝ) : EReal)

/-- `get_output`: maps every output bin through `20.0 * abs().log10()`. -/
noncomputable def AudioFFT.get_output (self : AudioFFT) : List EReal :=
  self.output.map (fun x => ((20 : ℝ) : EReal) * f64_log10 x.abs)

/-- `execute(buffer)`: panics (none) when the buffer length differs from
`get_buf_size`, before anything is read or written; otherwise decodes,
splits channels, windows channel 0 (`channel_data[0]` panics when there
are no channels), loads it into the input buffer, runs the external
transform (which overwrites the output buffer), and reads the decibel
spectrum.  The returned AudioFFT is the state after the call. -/
noncomputable def AudioFFT.execute (fftw_execute : List ℝ → List FftwComplex)
    (self : AudioFFT) (buffer : List Nat) : AudioFFT × Option (List EReal) :=
  if buffer.length ≠ self.get_buf_size then (self, none)
  else
    let all_floats := get_floats buffer
    let channel_data := split_channels self.channels all_floats
    match channel_data.head? with
    | none => (self, none)
    | some ch0 =>
      let windowed := do_hanning_window ch0
      let self1 : AudioFFT := { self with input := load_channel self.input windowed }
      let self2 : AudioFFT := { self1 with output := fftw_execute self1.input }
      (self2, some self2.get_output)

/-! ### FrameRenderer: Visualizer (src/visualizer.rs)

The ncurses window is external: the terminal size read by get_max_yx, the
per-row success of addbytes and the result of refresh are parameters of
render_frame.  The c_char cells are modelled as Char. -/

/-- The character used for a bar. -/
def BAR_CHAR : Char := '|'

/-- The character used for rows above the bar. -/
def EMPTY_CHAR : Char := ' '

/-- The character used where there is a lack of data due to scaling. -/
def BORDER_CHAR : Char := ' '

/-- The character the row arrays are initialized with. -/
def INIT_CHAR : Char := '#'

/-- `get_min_max`: one pass over the values, with both accumulators
seeded at 0.0, taking each element when it is strictly below the current
minimum or strictly above the current maximum. -/
noncomputable def get_min_max (l : List ℝ) : ℝ × ℝ :=
  l.foldl (fun mm x =>
    (if x < mm.1 then x else mm.1, if x > mm.2 then x else mm.2)) (0, 0)

/-- The while-push loop pattern: append `fill` until the length reaches
`target` (the first while in resize_rowbuf and update_row_count). -/
def padTo (α : Type) (fill : α) (l : List α) (target : Nat) : List α :=
  if _h : l.length < target then padTo α fill (l ++ [fill]) target else l
termination_by target - l.length
decreasing_by
  simp only [List.length_append, List.length_singleton]
  omega

/-- The while-pop loop pattern: drop the last element until the length is
down to `target` (the second while in resize_rowbuf and
update_row_count). -/
def chopTo (α : Type) (l : List α) (target : Nat) : List α :=
  if _h : target < l.length then chopTo α l.dropLast target else l
termination_by l.length
decreasing_by
  simp only [List.length_dropLast]
  omega

/-- `resize_rowbuf`: grow the row with INIT_CHAR while it is shorter than
`width`, then pop while it is longer (shrink_to_fit only affects
capacity). -/
def resize_rowbuf (row : List Char) (width : Nat) : List Char :=
  chopTo Char (padTo Char INIT_CHAR row width) width

/-- The Visualizer state: the row buffers and the width/height observed
at the last size update.  The ncurses window handle is external. -/
structure Visualizer where
  rows : List (List Char)
  width : Nat
  height : Nat

/-- `update_row_count`: push empty rows while there are fewer than
`height`, pop rows while there are more. -/
def update_row_count (rows : List (List Char)) (height : Nat) :
    List (List Char) :=
  chopTo (List Char) (padTo (List Char) [] rows height) height

/-- `resize_rowbufs`: resize every row buffer to `width`. -/
def resize_rowbufs (rows : List (List Char)) (width : Nat) :
    List (List Char) :=
  rows.map (fun row => resize_rowbuf row width)

/-- `update_size`: reads `(max_y, max_x)` from the window (passed in
here), takes `height = max_y` and `width = max_x - 1` (a usize
subtraction; `max_x = 0` would underflow, ncurses reports at least 1),
and on any change adjusts the row count and then every row buffer. -/
def update_size (self : Visualizer) (max_y max_x : Nat) : Visualizer :=
  let height : Nat := max_y
  let width : Nat := max_x - 1
  if self.width ≠ width ∨ self.height ≠ height then
    Visualizer.mk (resize_rowbufs (update_row_count self.rows height) width)
      width height
  else self

/-- The bar heights computed in render_frame: 0 for a value below 1.0,
otherwise `((x / max_val) * (height - 1.0)) as usize`; the f64-to-usize
cast is truncation, equal to floor composed with clamping at 0 for every
value in range. -/
noncomputable def bar_heights (height : Nat) (data : List ℝ) : List Nat :=
  let max_val := (get_min_max data).2
  data.map (fun x =>
    if x < 1 then 0
    else (Int.floor ((x / max_val) * ((height : ℝ) - 1))).toNat)

/-- One row repaint of the y-th row: column x gets BORDER_CHAR beyond the
scaled data, a BAR_CHAR when `scaled[x] >= y`, EMPTY_CHAR otherwise (the
old cell content is overwritten unconditionally). -/
def paint_row (scaled : List Nat) (y : Nat) (row : List Char) : List Char :=
  (List.range row.length).map (fun x =>
    if scaled.length ≤ x then BORDER_CHAR
    else if y ≤ scaled.getD x 0 then BAR_CHAR
    else EMPTY_CHAR)

/-- The row loop of render_frame, iterating y from `k - 1` down to 0 over
the mutable rows (`iter_mut().enumerate().rev()`): paint row y in place,
then write it to screen row `height - y - 1`; when a write fails, return
immediately (remaining rows stay unpainted).  Returns the final rows, the
screen rows successfully written in order, and whether the loop ran to
completion. -/
def render_rows (writeOk : Nat → Bool) (scaled : List Nat) (height : Nat) :
    List (List Char) → Nat → List (List Char) × List Nat × Bool
  | rows, 0 => (rows, [], true)
  | rows, k + 1 =>
      let row2 := paint_row scaled k (rows.getD k [])
      let rows2 := rows.set k row2
      let screen_row := height - k - 1
      if writeOk screen_row then
        let r := render_rows writeOk scaled height rows2 k
        (r.1, screen_row :: r.2.1, r.2.2)
      else
        (rows2, [], false)

/-- The formatted debug overlay
`format!(" width: {}, height: {}, bars: {} ", ...)`. -/
def debuginfo (width height bars : Nat) : String :=
  " width: " ++ Nat.repr width ++ ", height: " ++ Nat.repr height ++
    ", bars: " ++ Nat.repr bars ++ " "

/-- Observable outcome of one render_frame call: the final Visualizer
state, the returned Result (none models a panic), the screen rows
successfully written, whether the debug overlay addstr was reached, and
whether refresh was called. -/
structure RenderOutcome where
  state : Visualizer
  result : Option (Except Int Unit)
  written : List Nat
  debug_written : Bool
  refresh_called : Bool

/-- The part of render_frame after scaling succeeded: compute bar
heights, run the row loop; on early exit return Ok(()) with the frame
dropped; otherwise compute the debug column `width - debuginfo.len()`
(an overflow-checked usize subtraction: none models the panic when the
width is smaller), addstr it (result discarded by `let _ =`), and
propagate the refresh result through `try!`. -/
noncomputable def render_frame_scaled (writeOk : Nat → Bool)
    (refreshRes : Except Int Unit) (st1 : Visualizer) (data2 : List ℝ) :
    RenderOutcome :=
  let scaled := bar_heights st1.height data2
  let r := render_rows writeOk scaled st1.height st1.rows st1.rows.length
  let st2 : Visualizer := Visualizer.mk r.1 st1.width st1.height
  if r.2.2 then
    if st2.width < (debuginfo st2.width st2.height scaled.length).length then
      ⟨st2, none, r.2.1, false, false⟩
    else
      ⟨st2, some refreshRes, r.2.1, true, true⟩
  else
    ⟨st2, some (Except.ok ()), r.2.1, false, false⟩

/-- `render_frame(data)`: update the size, scale the spectrum to the
stored width (none: the division-by-zero panic inside scale for width 0
propagates), then hand off to render_frame_scaled. -/
noncomputable def render_frame (writeOk : Nat → Bool)
    (refreshRes : Except Int Unit) (max_y max_x : Nat) (st : Visualizer)
    (data : List ℝ) : RenderOutcome :=
  match scale_fft_output ℝ data (update_size st max_y max_x).width with
  | none =>
      ⟨update_size st max_y max_x, none, [], false, false⟩
  | some data2 =>
      render_frame_scaled writeOk refreshRes (update_size st max_y max_x) data2

lemma scale_band_size_pos (len new_len : Nat) (h0 : 0 < new_len)
    (h1 : new_len < len) : 0 < len / new_len :=
  Nat.div_pos (Nat.le_of_lt h1) h0

/-- Closed form of one pass of the loop from an accumulator state
`(c, s)` with `c ≤ b`. -/
lemma scaleLoop_spec (α : Type) [DivisionRing α] (b : Nat) (l : List α) :
    ∀ (c : Nat) (s : α), c ≤ b →
      scaleLoop α b l c s =
        if l.length + c < b then []
        else if l.length + c = b then [(s + l.sum) / (b : α)]
        else ((s + (l.take (b - c)).sum) / (b : α)) ::
          scaleLoop α b (l.drop (b - c + 1)) 0 0 := by
  induction l with
  | nil =>
    intro c s hc
    rcases eq_or_lt_of_le hc with rfl | hlt
    · simp [scaleLoop]
    · rw [scaleLoop]
      rw [if_neg (by omega)]
      simp only [List.length_nil, Nat.zero_add]
      rw [if_pos hlt]
  | cons x rest ih =>
    intro c s hc
    rcases eq_or_lt_of_le hc with rfl | hlt
    · rw [scaleLoop, if_pos (Nat.le_refl c)]
      rw [if_neg (by simp only [List.length_cons]; omega),
        if_neg (by simp only [List.length_cons]; omega)]
      simp
    · rw [scaleLoop, if_neg (by omega)]
      rw [ih (c + 1) (s + x) (by omega)]
      by_cases h1 : rest.length + (c + 1) < b
      · rw [if_pos h1, if_pos (by simp only [List.length_cons]; omega)]
      · by_cases h2 : rest.length + (c + 1) = b
        · rw [if_neg h1, if_pos h2,
            if_neg (by simp only [List.length_cons]; omega),
            if_pos (by simp only [List.length_cons]; omega)]
          rw [List.sum_cons, add_assoc]
        · rw [if_neg h1, if_neg h2,
            if_neg (by simp only [List.length_cons]; omega),
            if_neg (by simp only [List.length_cons]; omega)]
          have hbc : b - c = (b - (c + 1)) + 1 := by omega
          rw [hbc, List.take_succ_cons, List.drop_succ_cons,
            List.sum_cons, ← add_assoc]

/-- The loop started from the zero accumulator computes `scaleBands`. -/
lemma scaleLoop_eq_scaleBands (α : Type) [DivisionRing α] (b : Nat) :
    ∀ (n : Nat) (l : List α), l.length ≤ n →
      scaleLoop α b l 0 0 = scaleBands α b l := by
  intro n
  induction n with
  | zero =>
    intro l hl
    have hnil : l = [] := List.eq_nil_of_length_eq_zero (Nat.le_zero.mp hl)
    subst hnil
    rw [scaleBands]
    rcases Nat.eq_zero_or_pos b with rfl | hb
    · simp [scaleLoop]
    · rw [dif_pos (by simpa using hb)]
      rw [scaleLoop, if_neg (by omega)]
  | succ n ihn =>
    intro l hl
    rw [scaleLoop_spec α b l 0 0 (Nat.zero_le b), scaleBands]
    simp only [Nat.add_zero, Nat.sub_zero, zero_add]
    by_cases h1 : l.length < b
    · rw [if_pos h1, dif_pos h1]
    · by_cases h2 : l.length = b
      · rw [if_neg h1, dif_neg h1, if_pos h2, dif_pos h2]
      · rw [if_neg h1, dif_neg h1, if_neg h2, dif_neg h2]
        congr 1
        exact ihn _ (by simp only [List.length_drop]; omega)

/-- Number of bands produced: one per full `b + 1`-sized group consumed
during the loop, plus a final one exactly when `b` elements are left. -/
lemma scaleBands_length (α : Type) [DivisionRing α] (b : Nat) :
    ∀ (n : Nat) (l : List α), l.length ≤ n →
      (scaleBands α b l).length =
        l.length / (b + 1) + (if l.length % (b + 1) = b then 1 else 0) := by
  intro n
  induction n with
  | zero =>
    intro l hl
    have hnil : l = [] := List.eq_nil_of_length_eq_zero (Nat.le_zero.mp hl)
    subst hnil
    rw [scaleBands]
    rcases Nat.eq_zero_or_pos b with rfl | hb
    · simp
    · rw [dif_pos (by simpa using hb)]
      simp only [List.length_nil, Nat.zero_div, Nat.zero_mod]
      rw [if_neg (by omega)]
  | succ n ihn =>
    intro l hl
    rw [scaleBands]
    by_cases h1 : l.length < b
    · rw [dif_pos h1]
      have hd : l.length / (b + 1) = 0 := Nat.div_eq_of_lt (by omega)
      have hm : l.length % (b + 1) = l.length := Nat.mod_eq_of_lt (by omega)
      simp only [List.length_nil, hd, hm]
      rw [if_neg (by omega)]
    · by_cases h2 : l.length = b
      · rw [dif_neg h1, dif_pos h2]
        have hd : l.length / (b + 1) = 0 := Nat.div_eq_of_lt (by omega)
        have hm : l.length % (b + 1) = l.length := Nat.mod_eq_of_lt (by omega)
        simp only [List.length_singleton, hd, hm]
        rw [if_pos h2]
      · rw [dif_neg h1, dif_neg h2]
        simp only [List.length_cons]
        rw [ihn _ (by simp only [List.length_drop]; omega)]
        simp only [List.length_drop]
        obtain ⟨m, hm⟩ : ∃ m, l.length = m + (b + 1) := ⟨l.length - (b + 1), by omega⟩
        rw [hm]
        rw [Nat.add_sub_cancel, Nat.add_mod_right]
        have hdiv : (m + (b + 1)) / (b + 1) = m / (b + 1) + 1 := by
          rw [Nat.add_div_right _ (Nat.succ_pos b)]
        rw [hdiv]
        by_cases hmod : m % (b + 1) = b <;> simp [hmod]

/-- The i-th band is the mean of the `b` consecutive input elements that
start at flat index `i * (b + 1)`. -/
lemma scaleBands_get (α : Type) [DivisionRing α] (b : Nat) (hb : 0 < b) :
    ∀ (n : Nat) (l : List α) (i : Nat), l.length ≤ n →
      i < (scaleBands α b l).length →
      (scaleBands α b l).get? i =
        some (((l.drop (i * (b + 1))).take b).sum / (b : α)) := by
  intro n
  induction n with
  | zero =>
    intro l i hl hi
    have hnil : l = [] := List.eq_nil_of_length_eq_zero (Nat.le_zero.mp hl)
    subst hnil
    rw [scaleBands] at hi
    rw [dif_pos (by simpa using hb)] at hi
    simp at hi
  | succ n ihn =>
    intro l i hl hi
    rw [scaleBands] at hi ⊢
    by_cases h1 : l.length < b
    · rw [dif_pos h1] at hi
      simp at hi
    · by_cases h2 : l.length = b
      · rw [dif_neg h1, dif_pos h2] at hi ⊢
        have hi0 : i = 0 := by simpa using hi
        subst hi0
        simp only [Nat.zero_mul, List.drop_zero, List.get?_cons_zero]
        rw [List.take_of_length_le (by omega)]
      · rw [dif_neg h1, dif_neg h2] at hi ⊢
        cases i with
        | zero =>
          simp
        | succ j =>
          rw [List.get?_cons_succ]
          rw [ihn (l.drop (b + 1)) j
            (by simp only [List.length_drop]; omega)
            (by simpa using hi)]
          rw [List.drop_drop]
          have harith : b + 1 + j * (b + 1) = (j + 1) * (b + 1) := by ring
          rw [harith]

/-- Full characterization of the downscaling branch: for `0 < M <
input.length` the function returns `scaleBands b input` where
`b = input.length / M`; that list has one element per `b + 1`-sized group
(plus a final one when exactly `b` elements remain), and its i-th element
is the mean of the `b` input elements starting at index `i * (b + 1)` —
the element at index `i * (b + 1) + b`, whose arrival triggers the push,
is dropped. -/
lemma scale_characterization (α : Type) [DivisionRing α] (input : List α)
    (M : Nat) (hM0 : 0 < M) (hM : M < input.length) :
    scale_fft_output α input M = some (scaleBands α (input.length / M) input) ∧
    (scaleBands α (input.length / M) input).length =
      input.length / (input.length / M + 1) +
        (if input.length % (input.length / M + 1) = input.length / M
          then 1 else 0) ∧
    ∀ i, i < (scaleBands α (input.length / M) input).length →
      (scaleBands α (input.length / M) input).get? i =
        some (((input.drop (i * (input.length / M + 1))).take
          (input.length / M)).sum / ((input.length / M : Nat) : α)) := by
  have hb : 0 < input.length / M := scale_band_size_pos _ _ hM0 hM
  have heq : scale_fft_output α input M =
      some (scaleLoop α (input.length / M) input 0 0) := by
    rw [scale_fft_output, if_neg (by omega), if_neg (by omega)]
    show (if input.length / M = 0 then none
      else some (scaleLoop α (input.length / M) input 0 0)) = _
    rw [if_neg (by omega)]
  refine ⟨?_,
    scaleBands_length α (input.length / M) input.length input (le_refl _),
    fun i hi =>
      scaleBands_get α (input.length / M) hb input.length input i (le_refl _) hi⟩
  rw [heq, scaleLoop_eq_scaleBands α (input.length / M) input.length input (le_refl _)]

/-- C1 counterexample: on the spec example the code returns two bands,
15 and 45, not the three block means 15, 35, 55: after each emitted
average the element that triggered the push (30, then 60) is discarded
and no third band is ever completed. -/
theorem scale_six_by_three_counterexample :
    scale_fft_output ℚ [10, 20, 30, 40, 50, 60] 3 = some [15, 45] ∧
    scale_fft_output ℚ [10, 20, 30, 40, 50, 60] 3 ≠ some [15, 35, 55] := by
  have h : scale_fft_output ℚ [10, 20, 30, 40, 50, 60] 3 = some [15, 45] := by
    simp [scale_fft_output, scaleLoop]
    norm_num
  refine ⟨h, ?_⟩
  rw [h]
  norm_num

/-- C1 (amended): for `M < input.length` with `input.length` an exact
multiple of `bandSize = input.length / M`, `scale(input, M)` returns the
list whose i-th element is the arithmetic mean of the `bandSize` input
elements starting at flat index `i * (bandSize + 1)` (one input element
is skipped after each band), and whose length is
`input.length / (bandSize + 1)` plus one more when
`input.length mod (bandSize + 1) = bandSize`; in particular
`scale([10,20,30,40,50,60], 3) = [15, 45]`, of length 2, not `M = 3`. -/
theorem scale_exact_multiple_band_means_with_skip (α : Type) [DivisionRing α]
    (input : List α) (M : Nat) (hM : M < input.length)
    (hmul : input.length % (input.length / M) = 0) :
    scale_fft_output α input M = some (scaleBands α (input.length / M) input) ∧
    (scaleBands α (input.length / M) input).length =
      input.length / (input.length / M + 1) +
        (if input.length % (input.length / M + 1) = input.length / M
          then 1 else 0) ∧
    ∀ i, i < (scaleBands α (input.length / M) input).length →
      (scaleBands α (input.length / M) input).get? i =
        some (((input.drop (i * (input.length / M + 1))).take
          (input.length / M)).sum / ((input.length / M : Nat) : α)) := by
  have hM0 : 0 < M := by
    rcases Nat.eq_zero_or_pos M with rfl | h
    · simp only [Nat.div_zero, Nat.mod_zero] at hmul
      omega
    · exact h
  exact scale_characterization α input M hM0 hM

/-- C1 witness: the amended theorem applied to the concrete spec example
`[10,20,30,40,50,60]` with target length 3. -/
theorem scale_exact_multiple_witness :
    3 < ([10, 20, 30, 40, 50, 60] : List ℚ).length ∧
    ([10, 20, 30, 40, 50, 60] : List ℚ).length %
      (([10, 20, 30, 40, 50, 60] : List ℚ).length / 3) = 0 ∧
    scale_fft_output ℚ [10, 20, 30, 40, 50, 60] 3 =
      some (scaleBands ℚ (([10, 20, 30, 40, 50, 60] : List ℚ).length / 3)
        [10, 20, 30, 40, 50, 60]) :=
  ⟨by decide, by decide,
    (scale_exact_multiple_band_means_with_skip ℚ [10, 20, 30, 40, 50, 60] 3
      (by decide) (by decide)).1⟩

/-- C2 counterexample: on the spec example the code returns 1.5 and 4.5,
not 1.5 and 3.5: the element 3, which arrives when the running count has
reached bandSize = 2, is never accumulated; the second band averages 4
and 5, and only the boundary element 3 — an interior element, not a
trailing remainder — is dropped. -/
theorem scale_five_by_two_counterexample :
    scale_fft_output ℚ [1, 2, 3, 4, 5] 2 = some [3 / 2, 9 / 2] ∧
    scale_fft_output ℚ [1, 2, 3, 4, 5] 2 ≠ some [3 / 2, 7 / 2] := by
  have h : scale_fft_output ℚ [1, 2, 3, 4, 5] 2 = some [3 / 2, 9 / 2] := by
    simp [scale_fft_output, scaleLoop]
    norm_num
  refine ⟨h, ?_⟩
  rw [h]
  norm_num

/-- C2 (amended): in `scale(input, M)` with `0 < M < input.length`, an
element arriving while the running count is below bandSize is
accumulated, an element arriving when the count has reached bandSize
triggers emission of the mean of the accumulated bandSize elements and is
itself discarded (so interior band-boundary elements are dropped, not
only a trailing remainder), and after the scan one final mean is emitted
exactly when bandSize elements are pending; in particular
`scale([1,2,3,4,5], 2) = [1.5, 4.5]`. -/
theorem scale_scan_drops_band_boundary_elements (α : Type) [DivisionRing α]
    (input : List α) (M : Nat) (hM0 : 0 < M) (hM : M < input.length) :
    scale_fft_output α input M = some (scaleBands α (input.length / M) input) ∧
    (scaleBands α (input.length / M) input).length =
      input.length / (input.length / M + 1) +
        (if input.length % (input.length / M + 1) = input.length / M
          then 1 else 0) ∧
    ∀ i, i < (scaleBands α (input.length / M) input).length →
      (scaleBands α (input.length / M) input).get? i =
        some (((input.drop (i * (input.length / M + 1))).take
          (input.length / M)).sum / ((input.length / M : Nat) : α)) :=
  scale_characterization α input M hM0 hM

/-- C2 witness: the amended theorem applied to the concrete spec example
`[1,2,3,4,5]` with target length 2. -/
theorem scale_scan_witness :
    0 < 2 ∧ 2 < ([1, 2, 3, 4, 5] : List ℚ).length ∧
    scale_fft_output ℚ [1, 2, 3, 4, 5] 2 =
      some (scaleBands ℚ (([1, 2, 3, 4, 5] : List ℚ).length / 2)
        [1, 2, 3, 4, 5]) :=
  ⟨by decide, by decide,
    (scale_scan_drops_band_boundary_elements ℚ [1, 2, 3, 4, 5] 2
      (by decide) (by decide)).1⟩

/-- C8: whenever the target length is at least the input length
(including input lengths 0 and 1), `scale_fft_output` takes the early
return and hands back the input unchanged. -/
theorem scale_identity_when_target_ge_length (α : Type) [DivisionRing α]
    (input : List α) (M : Nat) (h : input.length ≤ M) :
    scale_fft_output α input M = some input := by
  rw [scale_fft_output, if_pos h]

/-- C8 witness: the identity at the empty input with target 0 and at a
one-element input with target 1. -/
theorem scale_identity_witness :
    ([] : List ℚ).length ≤ 0 ∧ scale_fft_output ℚ [] 0 = some [] ∧
    ([7] : List ℚ).length ≤ 1 ∧ scale_fft_output ℚ [7] 1 = some [7] :=
  ⟨by decide, scale_identity_when_target_ge_length ℚ [] 0 (by decide),
    by decide, scale_identity_when_target_ge_length ℚ [7] 1 (by decide)⟩

/-- C9: for every non-empty input, `scale_fft_output(input, 0)` skips the
early return (0 is below the input length) and then computes
`input.len() / 0`, an integer division by zero, i.e. a panic — modelled
here as the result none — rather than returning an empty list. -/
theorem scale_target_zero_not_total (α : Type) [DivisionRing α]
    (input : List α) (h : input ≠ []) :
    scale_fft_output α input 0 = none := by
  have hlen : 0 < input.length := List.length_pos.mpr h
  rw [scale_fft_output, if_neg (by omega), if_pos rfl]

/-- C9 witness: the division-by-zero panic at the concrete input `[1]`. -/
theorem scale_target_zero_witness :
    ([1] : List ℚ) ≠ [] ∧ scale_fft_output ℚ [1] 0 = none :=
  ⟨by decide, scale_target_zero_not_total ℚ [1] (by decide)⟩

lemma padTo_length_aux (α : Type) (fill : α) (target : Nat) :
    ∀ (fuel : Nat) (l : List α), target - l.length ≤ fuel →
      (padTo α fill l target).length = max l.length target := by
  intro fuel
  induction fuel with
  | zero =>
    intro l hl
    rw [padTo, dif_neg (by omega)]
    exact (Nat.max_eq_left (by omega)).symm
  | succ n ihn =>
    intro l hl
    rw [padTo]
    by_cases h : l.length < target
    · rw [dif_pos h, ihn (l ++ [fill])
        (by simp only [List.length_append, List.length_singleton]; omega)]
      simp only [List.length_append, List.length_singleton]
      rw [Nat.max_eq_right (by omega), Nat.max_eq_right (by omega)]
    · rw [dif_neg h]
      exact (Nat.max_eq_left (by omega)).symm

lemma padTo_length (α : Type) (fill : α) (l : List α) (target : Nat) :
    (padTo α fill l target).length = max l.length target :=
  padTo_length_aux α fill target (target - l.length) l (le_refl _)

lemma chopTo_length_aux (α : Type) (target : Nat) :
    ∀ (fuel : Nat) (l : List α), l.length ≤ fuel →
      (chopTo α l target).length = min l.length target := by
  intro fuel
  induction fuel with
  | zero =>
    intro l hl
    rw [chopTo, dif_neg (by omega)]
    exact (Nat.min_eq_left (by omega)).symm
  | succ n ihn =>
    intro l hl
    rw [chopTo]
    by_cases h : target < l.length
    · rw [dif_pos h, ihn l.dropLast (by simp only [List.length_dropLast]; omega)]
      simp only [List.length_dropLast]
      rw [Nat.min_eq_right (by omega), Nat.min_eq_right (by omega)]
    · rw [dif_neg h]
      exact (Nat.min_eq_left (by omega)).symm

lemma chopTo_length (α : Type) (l : List α) (target : Nat) :
    (chopTo α l target).length = min l.length target :=
  chopTo_length_aux α target l.length l (le_refl _)

lemma resize_rowbuf_length (row : List Char) (width : Nat) :
    (resize_rowbuf row width).length = width := by
  rw [resize_rowbuf, chopTo_length, padTo_length]
  exact Nat.min_eq_right (Nat.le_max_right _ _)

lemma update_row_count_length (rows : List (List Char)) (height : Nat) :
    (update_row_count rows height).length = height := by
  rw [update_row_count, chopTo_length, padTo_length]
  exact Nat.min_eq_right (Nat.le_max_right _ _)

lemma update_size_changed (st : Visualizer) (max_y max_x : Nat)
    (hchange : st.width ≠ max_x - 1 ∨ st.height ≠ max_y) :
    update_size st max_y max_x =
      Visualizer.mk
        (resize_rowbufs (update_row_count st.rows max_y) (max_x - 1))
        (max_x - 1) max_y := by
  rw [update_size, if_pos hchange]

/-- The if-then-else accumulator steps of get_min_max are exactly min and
max. -/
lemma foldl_minmax (l : List ℝ) : ∀ (a b : ℝ),
    l.foldl (fun mm x =>
        (if x < mm.1 then x else mm.1, if x > mm.2 then x else mm.2)) (a, b) =
      (l.foldl (fun m x => min m x) a, l.foldl (fun m x => max m x) b) := by
  induction l with
  | nil => intro a b; rfl
  | cons x t ih =>
    intro a b
    simp only [List.foldl_cons]
    have h1 : (if x < a then x else a) = min a x := by
      rcases lt_or_le x a with h | h
      · rw [if_pos h, min_eq_right h.le]
      · rw [if_neg (not_lt.mpr h), min_eq_left h]
    have h2 : (if x > b then x else b) = max b x := by
      rcases lt_or_le b x with h | h
      · rw [if_pos h, max_eq_right h.le]
      · rw [if_neg (not_lt.mpr h), max_eq_left h]
    rw [h1, h2]
    exact ih (min a x) (max b x)

lemma get_min_max_eq (l : List ℝ) :
    get_min_max l = (l.foldl (fun m x => min m x) 0,
      l.foldl (fun m x => max m x) 0) :=
  foldl_minmax l 0 0

lemma foldl_min_le (l : List ℝ) : ∀ a : ℝ, l.foldl (fun m x => min m x) a ≤ a := by
  induction l with
  | nil => intro a; exact le_refl a
  | cons x t ih =>
    intro a
    simp only [List.foldl_cons]
    exact le_trans (ih (min a x)) (min_le_left a x)

lemma le_foldl_max (l : List ℝ) : ∀ a : ℝ, a ≤ l.foldl (fun m x => max m x) a := by
  induction l with
  | nil => intro a; exact le_refl a
  | cons x t ih =>
    intro a
    simp only [List.foldl_cons]
    exact le_trans (le_max_left a x) (ih (max a x))

lemma paint_row_length (scaled : List Nat) (y : Nat) (row : List Char) :
    (paint_row scaled y row).length = row.length := by
  rw [paint_row, List.length_map, List.length_range]

/-- Replacing the k-th row by one of the same length leaves the profile
of row lengths unchanged. -/
lemma map_length_set (rows : List (List Char)) :
    ∀ (k : Nat) (r2 : List Char), r2.length = (rows.getD k []).length →
      (rows.set k r2).map List.length = rows.map List.length := by
  induction rows with
  | nil => intro k r2 _; rfl
  | cons hd tl ih =>
    intro k r2 hlen
    cases k with
    | zero =>
      simp only [List.set_cons_zero, List.map_cons]
      rw [show (hd :: tl).getD 0 [] = hd from rfl] at hlen
      rw [hlen]
    | succ k =>
      simp only [List.set_cons_succ, List.map_cons]
      rw [ih k r2 (by simpa using hlen)]

lemma render_rows_map_length (writeOk : Nat → Bool) (scaled : List Nat)
    (height : Nat) :
    ∀ (k : Nat) (rows : List (List Char)),
      (render_rows writeOk scaled height rows k).1.map List.length =
        rows.map List.length := by
  intro k
  induction k with
  | zero => intro rows; rfl
  | succ k ih =>
    intro rows
    rw [render_rows]
    have hset : (rows.set k (paint_row scaled k (rows.getD k []))).map
        List.length = rows.map List.length :=
      map_length_set rows k _ (paint_row_length _ _ _)
    by_cases h : writeOk (height - k - 1) = true
    · rw [if_pos h]
      rw [ih, hset]
    · rw [if_neg h]
      exact hset

/-- The row loop runs to completion exactly when every attempted write
succeeds. -/
lemma render_rows_complete_iff (writeOk : Nat → Bool) (scaled : List Nat)
    (height : Nat) :
    ∀ (k : Nat) (rows : List (List Char)),
      (render_rows writeOk scaled height rows k).2.2 = true ↔
        ∀ y, y < k → writeOk (height - y - 1) = true := by
  intro k
  induction k with
  | zero =>
    intro rows
    constructor
    · intro _ y hy
      omega
    · intro _
      rfl
  | succ k ih =>
    intro rows
    rw [render_rows]
    by_cases h : writeOk (height - k - 1) = true
    · rw [if_pos h]
      rw [ih]
      constructor
      · intro hall y hy
        rcases Nat.lt_succ_iff_lt_or_eq.mp hy with hy' | rfl
        · exact hall y hy'
        · exact h
      · intro hall y hy
        exact hall y (Nat.lt_succ_of_lt hy)
    · rw [if_neg h]
      constructor
      · intro hfalse
        exact absurd hfalse (by simp)
      · intro hall
        exact absurd (hall k (Nat.lt_succ_self k)) h

/-- When the loop exits early, strictly fewer than k rows were written. -/
lemma render_rows_written_lt (writeOk : Nat → Bool) (scaled : List Nat)
    (height : Nat) :
    ∀ (k : Nat) (rows : List (List Char)),
      (render_rows writeOk scaled height rows k).2.2 = false →
        (render_rows writeOk scaled height rows k).2.1.length < k := by
  intro k
  induction k with
  | zero =>
    intro rows h
    exact absurd h (by simp [render_rows])
  | succ k ih =>
    intro rows
    rw [render_rows]
    by_cases h : writeOk (height - k - 1) = true
    · rw [if_pos h]
      intro hfail
      simp only [List.length_cons]
      exact Nat.succ_lt_succ (ih _ hfail)
    · rw [if_neg h]
      intro _
      simp only [List.length_nil]
      omega

lemma render_frame_eq_some (writeOk : Nat → Bool) (refreshRes : Except Int Unit)
    (max_y max_x : Nat) (st : Visualizer) (data data2 : List ℝ)
    (h : scale_fft_output ℝ data (update_size st max_y max_x).width = some data2) :
    render_frame writeOk refreshRes max_y max_x st data =
      render_frame_scaled writeOk refreshRes (update_size st max_y max_x) data2 := by
  simp only [render_frame, h]

lemma render_frame_eq_none (writeOk : Nat → Bool) (refreshRes : Except Int Unit)
    (max_y max_x : Nat) (st : Visualizer) (data : List ℝ)
    (h : scale_fft_output ℝ data (update_size st max_y max_x).width = none) :
    render_frame writeOk refreshRes max_y max_x st data =
      ⟨update_size st max_y max_x, none, [], false, false⟩ := by
  simp only [render_frame, h]

/-- The final Visualizer state of render_frame_scaled in every branch:
the rows after the (possibly aborted) row loop, the width/height of the
sized state. -/
lemma render_frame_scaled_state (writeOk : Nat → Bool)
    (refreshRes : Except Int Unit) (st1 : Visualizer) (data2 : List ℝ) :
    (render_frame_scaled writeOk refreshRes st1 data2).state =
      Visualizer.mk
        (render_rows writeOk (bar_heights st1.height data2) st1.height
          st1.rows st1.rows.length).1 st1.width st1.height := by
  rw [render_frame_scaled]
  split_ifs <;> rfl

lemma toDigitsCore_length_ge (b : Nat) :
    ∀ (fuel n : Nat) (ds : List Char),
      ds.length ≤ (Nat.toDigitsCore b fuel n ds).length := by
  intro fuel
  induction fuel with
  | zero =>
    intro n ds
    simp [Nat.toDigitsCore]
  | succ f ih =>
    intro n ds
    simp only [Nat.toDigitsCore]
    by_cases h : n / b = 0
    · rw [if_pos h]
      simp
    · rw [if_neg h]
      exact le_trans (Nat.le_succ ds.length)
        (by simpa using ih (n / b) (Nat.digitChar (n % b) :: ds))

lemma one_le_repr_length (n : Nat) : 1 ≤ (Nat.repr n).length := by
  show 1 ≤ (Nat.toDigits 10 n).asString.length
  rw [List.length_asString, Nat.toDigits]
  simp only [Nat.toDigitsCore]
  by_cases h : n / 10 = 0
  · rw [if_pos h]
    simp
  · rw [if_neg h]
    exact le_trans (by simp)
      (toDigitsCore_length_ge 10 (n + 1 - 1) (n / 10) [Nat.digitChar (n % 10)])

/-- The debug overlay string has at least 30 characters: 27 characters of
fixed text plus at least one digit for each of the three numbers. -/
lemma debuginfo_min_length (w h b : Nat) : 30 ≤ (debuginfo w h b).length := by
  have e1 : (" width: " : String).length = 8 := rfl
  have e2 : (", height: " : String).length = 10 := rfl
  have e3 : (", bars: " : String).length = 8 := rfl
  have e4 : (" " : String).length = 1 := rfl
  have r1 := one_le_repr_length w
  have r2 := one_le_repr_length h
  have r3 := one_le_repr_length b
  simp only [debuginfo, String.length_append, e1, e2, e3, e4]
  omega

lemma resize_rowbufs_length_mem (rows : List (List Char)) (width : Nat) :
    ∀ row ∈ resize_rowbufs rows width, row.length = width := by
  intro row hrow
  rw [resize_rowbufs] at hrow
  rcases List.mem_map.mp hrow with ⟨r0, _, rfl⟩
  exact resize_rowbuf_length r0 width

/-- Outcome of render_frame_scaled when the row loop aborted early. -/
lemma render_frame_scaled_incomplete (writeOk : Nat → Bool)
    (refreshRes : Except Int Unit) (st1 : Visualizer) (data2 : List ℝ)
    (h : (render_rows writeOk (bar_heights st1.height data2) st1.height
      st1.rows st1.rows.length).2.2 = false) :
    render_frame_scaled writeOk refreshRes st1 data2 =
      ⟨Visualizer.mk (render_rows writeOk (bar_heights st1.height data2)
          st1.height st1.rows st1.rows.length).1 st1.width st1.height,
        some (Except.ok ()),
        (render_rows writeOk (bar_heights st1.height data2) st1.height
          st1.rows st1.rows.length).2.1, false, false⟩ := by
  simp only [render_frame_scaled]
  rw [if_neg (show ¬((render_rows writeOk (bar_heights st1.height data2)
      st1.height st1.rows st1.rows.length).2.2 = true) by
    rw [h]; exact Bool.false_ne_true)]

/-- Outcome of render_frame_scaled when the row loop completed and the
width is below the debug string length: the usize subtraction
`width - debuginfo.len()` underflows, a panic. -/
lemma render_frame_scaled_complete_narrow (writeOk : Nat → Bool)
    (refreshRes : Except Int Unit) (st1 : Visualizer) (data2 : List ℝ)
    (hdone : (render_rows writeOk (bar_heights st1.height data2) st1.height
      st1.rows st1.rows.length).2.2 = true)
    (hnarrow : st1.width < (debuginfo st1.width st1.height
      (bar_heights st1.height data2).length).length) :
    render_frame_scaled writeOk refreshRes st1 data2 =
      ⟨Visualizer.mk (render_rows writeOk (bar_heights st1.height data2)
          st1.height st1.rows st1.rows.length).1 st1.width st1.height,
        none,
        (render_rows writeOk (bar_heights st1.height data2) st1.height
          st1.rows st1.rows.length).2.1, false, false⟩ := by
  simp only [render_frame_scaled]
  rw [if_pos hdone, if_pos hnarrow]

/-- C3 counterexample: a zero-magnitude bin is mapped to raw negative
infinity (bot in EReal), not to any finite clamp-floor value: the code
applies `20.0 * log10` uniformly, with no clamp, before the value reaches
the min/max scan. -/
theorem get_output_zero_magnitude_is_bot :
    (AudioFFT.mk 1 [] [FftwComplex.mk 0 0] 2).get_output = [(⊥ : EReal)] := by
  have habs : (FftwComplex.mk 0 0).abs = 0 := by
    simp [FftwComplex.abs]
  simp only [AudioFFT.get_output, List.map_cons, List.map_nil, habs]
  rw [f64_log10, if_pos rfl, EReal.coe_mul_bot_of_pos (by norm_num)]

/-- C3 (amended): the decibel conversion maps magnitude 1.0 to 0 dB and
magnitude 10.0 to 20 dB, but a zero-magnitude bin yields raw negative
infinity: no floor/clamp policy is implemented, so the non-finite value
is returned and reaches the subsequent min/max scan and bar-height
computation. -/
theorem get_output_decibel_values :
    (AudioFFT.mk 1 [] [FftwComplex.mk 1 0] 2).get_output = [((0 : ℝ) : EReal)] ∧
    (AudioFFT.mk 1 [] [FftwComplex.mk 10 0] 2).get_output = [((20 : ℝ) : EReal)] ∧
    (AudioFFT.mk 1 [] [FftwComplex.mk 0 0] 2).get_output = [(⊥ : EReal)] := by
  refine ⟨?_, ?_, ?_⟩
  · have habs : (FftwComplex.mk 1 0).abs = 1 := by
      simp [FftwComplex.abs]
    simp only [AudioFFT.get_output, List.map_cons, List.map_nil, habs]
    rw [f64_log10, if_neg one_ne_zero, Real.logb_one, ← EReal.coe_mul]
    norm_num
  · have habs : (FftwComplex.mk 10 0).abs = 10 := by
      rw [FftwComplex.abs]
      rw [show ((10 : ℝ) * 10 + 0 * 0) = 10 ^ 2 by norm_num]
      exact Real.sqrt_sq (by norm_num)
    simp only [AudioFFT.get_output, List.map_cons, List.map_nil, habs]
    rw [f64_log10, if_neg (by norm_num), Real.logb_self_eq_one (by norm_num),
      ← EReal.coe_mul]
    norm_num
  · have habs : (FftwComplex.mk 0 0).abs = 0 := by
      simp [FftwComplex.abs]
    simp only [AudioFFT.get_output, List.map_cons, List.map_nil, habs]
    rw [f64_log10, if_pos rfl, EReal.coe_mul_bot_of_pos (by norm_num)]

/-- C4: whenever the buffer length differs from
`n * 2 * channels = get_buf_size`, execute fails (the Rust code panics
with "incorrect buffer length" before touching any state, modelled as the
result none) and the AudioFFT state — in particular the FFT input and
output buffers — is returned unchanged. -/
theorem execute_wrong_length_returns_error_unchanged
    (fftw_execute : List ℝ → List FftwComplex) (st : AudioFFT)
    (buffer : List Nat) (h : buffer.length ≠ st.get_buf_size) :
    AudioFFT.execute fftw_execute st buffer = (st, none) := by
  unfold AudioFFT.execute
  rw [if_pos h]

/-- C4 witness: an empty buffer against a transform sized for 2 bytes. -/
theorem execute_wrong_length_witness :
    ([] : List Nat).length ≠ (AudioFFT.mk 1 [] [] 1).get_buf_size ∧
    AudioFFT.execute (fun _ => []) (AudioFFT.mk 1 [] [] 1) [] =
      (AudioFFT.mk 1 [] [] 1, none) :=
  ⟨by decide, execute_wrong_length_returns_error_unchanged (fun _ => [])
    (AudioFFT.mk 1 [] [] 1) [] (by decide)⟩

/-- C5: in every render pass, get_min_max scans the scaled values with
both accumulators seeded at 0.0 (so minVal is at most 0 and maxVal at
least 0, not the first element), and the bar height of column x is 0 when
`scaled[x] < 1.0` and `floor((scaled[x] / maxVal) * (height - 1))`
(clamped at 0 by the usize cast) otherwise. -/
theorem render_minmax_seed_zero_and_bar_heights (l : List ℝ) (height : Nat)
    (i : Nat) (v : ℝ) (hv : l.get? i = some v) :
    get_min_max l = (l.foldl (fun m x => min m x) 0,
      l.foldl (fun m x => max m x) 0) ∧
    (get_min_max l).1 ≤ 0 ∧ 0 ≤ (get_min_max l).2 ∧
    (bar_heights height l).get? i =
      some (if v < 1 then 0
        else (Int.floor ((v / (get_min_max l).2) * ((height : ℝ) - 1))).toNat) := by
  refine ⟨get_min_max_eq l, ?_, ?_, ?_⟩
  · rw [get_min_max_eq]
    exact foldl_min_le l 0
  · rw [get_min_max_eq]
    exact le_foldl_max l 0
  · simp only [bar_heights]
    rw [List.get?_map, hv]
    rfl

/-- C5 witness: the scan and bar-height formula at the one-element list
`[2.0]` with height 3. -/
theorem render_minmax_witness :
    ([(2 : ℝ)].get? 0 = some 2) ∧
    (get_min_max [(2 : ℝ)] = ([(2 : ℝ)].foldl (fun m x => min m x) 0,
      [(2 : ℝ)].foldl (fun m x => max m x) 0) ∧
    (get_min_max [(2 : ℝ)]).1 ≤ 0 ∧ 0 ≤ (get_min_max [(2 : ℝ)]).2 ∧
    (bar_heights 3 [(2 : ℝ)]).get? 0 =
      some (if (2 : ℝ) < 1 then 0
        else (Int.floor (((2 : ℝ) / (get_min_max [(2 : ℝ)]).2) *
          (((3 : Nat) : ℝ) - 1))).toNat)) :=
  ⟨rfl, render_minmax_seed_zero_and_bar_heights [2] 3 0 2 rfl⟩

/-- C6: after a size change to terminal dimensions `(max_y, max_x)` —
tracked as `height = max_y` and `width = max_x - 1` — update_size (which
render_frame runs first) leaves exactly `height` rows, each of length
exactly `width`, and the subsequent in-place repainting of the frame
preserves the row count and every row length. -/
theorem resize_grid_dimensions (writeOk : Nat → Bool)
    (refreshRes : Except Int Unit) (max_y max_x : Nat) (st : Visualizer)
    (data : List ℝ)
    (hchange : st.width ≠ max_x - 1 ∨ st.height ≠ max_y) :
    (update_size st max_y max_x).height = max_y ∧
    (update_size st max_y max_x).width = max_x - 1 ∧
    (update_size st max_y max_x).rows.length = max_y ∧
    (∀ row ∈ (update_size st max_y max_x).rows, row.length = max_x - 1) ∧
    (render_frame writeOk refreshRes max_y max_x st data).state.rows.length
      = max_y ∧
    (∀ row ∈ (render_frame writeOk refreshRes max_y max_x st data).state.rows,
      row.length = max_x - 1) := by
  have hupd := update_size_changed st max_y max_x hchange
  have hrows_len : (update_size st max_y max_x).rows.length = max_y := by
    rw [hupd]
    show (resize_rowbufs (update_row_count st.rows max_y) (max_x - 1)).length
      = max_y
    rw [resize_rowbufs, List.length_map, update_row_count_length]
  have hrows_mem : ∀ row ∈ (update_size st max_y max_x).rows,
      row.length = max_x - 1 := by
    rw [hupd]
    exact resize_rowbufs_length_mem _ _
  have hmap : (render_frame writeOk refreshRes max_y max_x st
        data).state.rows.map List.length =
      (update_size st max_y max_x).rows.map List.length := by
    cases hscale : scale_fft_output ℝ data (update_size st max_y max_x).width with
    | none =>
        rw [render_frame_eq_none writeOk refreshRes max_y max_x st data hscale]
    | some data2 =>
        rw [render_frame_eq_some writeOk refreshRes max_y max_x st data data2
          hscale, render_frame_scaled_state]
        exact render_rows_map_length writeOk _ _ _ _
  have hlen2 : (render_frame writeOk refreshRes max_y max_x st
      data).state.rows.length = max_y := by
    have h1 := congrArg List.length hmap
    rw [List.length_map, List.length_map] at h1
    rw [h1, hrows_len]
  have hmem2 : ∀ row ∈ (render_frame writeOk refreshRes max_y max_x st
      data).state.rows, row.length = max_x - 1 := by
    intro row hrow
    have hmem : row.length ∈ (render_frame writeOk refreshRes max_y max_x st
        data).state.rows.map List.length :=
      List.mem_map_of_mem List.length hrow
    rw [hmap] at hmem
    rcases List.mem_map.mp hmem with ⟨r0, hr0, hlen⟩
    rw [← hlen]
    exact hrows_mem r0 hr0
  exact ⟨by rw [hupd], by rw [hupd], hrows_len, hrows_mem, hlen2, hmem2⟩

/-- C6 witness: a resize from the empty initial state to a 2-row,
width-3 terminal (max_x = 4). -/
theorem resize_grid_witness :
    ((Visualizer.mk [] 0 0).width ≠ 4 - 1 ∨ (Visualizer.mk [] 0 0).height ≠ 2) ∧
    ((update_size (Visualizer.mk [] 0 0) 2 4).height = 2 ∧
    (update_size (Visualizer.mk [] 0 0) 2 4).width = 4 - 1 ∧
    (update_size (Visualizer.mk [] 0 0) 2 4).rows.length = 2 ∧
    (∀ row ∈ (update_size (Visualizer.mk [] 0 0) 2 4).rows,
      row.length = 4 - 1) ∧
    (render_frame (fun _ => true) (Except.ok ()) 2 4 (Visualizer.mk [] 0 0)
      []).state.rows.length = 2 ∧
    (∀ row ∈ (render_frame (fun _ => true) (Except.ok ()) 2 4
        (Visualizer.mk [] 0 0) []).state.rows, row.length = 4 - 1)) :=
  ⟨by decide, resize_grid_dimensions (fun _ => true) (Except.ok ()) 2 4
    (Visualizer.mk [] 0 0) [] (by decide)⟩

/-- C7: when some row write of the frame fails, render_frame returns
success (Ok(())) without surfacing an error, the debug overlay is never
written, refresh is never called, and strictly fewer than the full number
of rows were written — the frame is dropped, not retried. -/
theorem row_write_failure_drops_frame (writeOk : Nat → Bool)
    (refreshRes : Except Int Unit) (max_y max_x : Nat) (st : Visualizer)
    (data data2 : List ℝ)
    (hscale : scale_fft_output ℝ data (update_size st max_y max_x).width
      = some data2)
    (hfail : ∃ y, y < (update_size st max_y max_x).rows.length ∧
      writeOk ((update_size st max_y max_x).height - y - 1) = false) :
    (render_frame writeOk refreshRes max_y max_x st data).result
      = some (Except.ok ()) ∧
    (render_frame writeOk refreshRes max_y max_x st data).refresh_called
      = false ∧
    (render_frame writeOk refreshRes max_y max_x st data).debug_written
      = false ∧
    (render_frame writeOk refreshRes max_y max_x st data).written.length <
      (update_size st max_y max_x).rows.length := by
  have hcomp : (render_rows writeOk
      (bar_heights (update_size st max_y max_x).height data2)
      (update_size st max_y max_x).height (update_size st max_y max_x).rows
      (update_size st max_y max_x).rows.length).2.2 = false := by
    rcases hfail with ⟨y, hy, hw⟩
    by_contra hne
    rw [Bool.not_eq_false] at hne
    have hws := (render_rows_complete_iff writeOk
      (bar_heights (update_size st max_y max_x).height data2)
      (update_size st max_y max_x).height
      (update_size st max_y max_x).rows.length
      (update_size st max_y max_x).rows).mp hne y hy
    rw [hw] at hws
    exact Bool.false_ne_true hws
  rw [render_frame_eq_some writeOk refreshRes max_y max_x st data data2 hscale,
    render_frame_scaled_incomplete writeOk refreshRes _ data2 hcomp]
  refine ⟨rfl, rfl, rfl, ?_⟩
  exact render_rows_written_lt writeOk _ _ _ _ hcomp

/-- C7 witness: a one-row visualizer whose single row write fails. -/
theorem row_write_failure_witness :
    scale_fft_output ℝ []
      (update_size (Visualizer.mk [[]] 0 1) 1 1).width = some ([] : List ℝ) ∧
    (∃ y, y < (update_size (Visualizer.mk [[]] 0 1) 1 1).rows.length ∧
      (fun _ : Nat => false)
        ((update_size (Visualizer.mk [[]] 0 1) 1 1).height - y - 1) = false) ∧
    (render_frame (fun _ : Nat => false) (Except.ok ()) 1 1
      (Visualizer.mk [[]] 0 1) []).result = some (Except.ok ()) := by
  have h1 : scale_fft_output ℝ []
      (update_size (Visualizer.mk [[]] 0 1) 1 1).width = some ([] : List ℝ) := rfl
  have h2 : ∃ y, y < (update_size (Visualizer.mk [[]] 0 1) 1 1).rows.length ∧
      (fun _ : Nat => false)
        ((update_size (Visualizer.mk [[]] 0 1) 1 1).height - y - 1) = false :=
    ⟨0, by decide, rfl⟩
  exact ⟨h1, h2, (row_write_failure_drops_frame (fun _ : Nat => false)
    (Except.ok ()) 1 1 (Visualizer.mk [[]] 0 1) [] [] h1 h2).1⟩

/-- C10: when the row loop completes, render_frame computes the debug
overlay column as the usize subtraction `width - debuginfo.len()`;
whenever the stored width is smaller than that formatted string — which
always has at least 30 characters — the subtraction underflows and the
call panics (result none): render_frame is only total for widths of at
least the debug string length. -/
theorem render_debug_offset_underflow (writeOk : Nat → Bool)
    (refreshRes : Except Int Unit) (max_y max_x : Nat) (st : Visualizer)
    (data data2 : List ℝ)
    (hscale : scale_fft_output ℝ data (update_size st max_y max_x).width
      = some data2)
    (hall : ∀ y, y < (update_size st max_y max_x).rows.length →
      writeOk ((update_size st max_y max_x).height - y - 1) = true)
    (hnarrow : (update_size st max_y max_x).width <
      (debuginfo (update_size st max_y max_x).width
        (update_size st max_y max_x).height
        (bar_heights (update_size st max_y max_x).height data2).length).length) :
    (render_frame writeOk refreshRes max_y max_x st data).result = none ∧
    30 ≤ (debuginfo (update_size st max_y max_x).width
      (update_size st max_y max_x).height
      (bar_heights (update_size st max_y max_x).height data2).length).length := by
  have hdone : (render_rows writeOk
      (bar_heights (update_size st max_y max_x).height data2)
      (update_size st max_y max_x).height (update_size st max_y max_x).rows
      (update_size st max_y max_x).rows.length).2.2 = true :=
    (render_rows_complete_iff writeOk
      (bar_heights (update_size st max_y max_x).height data2)
      (update_size st max_y max_x).height
      (update_size st max_y max_x).rows.length
      (update_size st max_y max_x).rows).mpr hall
  rw [render_frame_eq_some writeOk refreshRes max_y max_x st data data2 hscale,
    render_frame_scaled_complete_narrow writeOk refreshRes _ data2 hdone hnarrow]
  exact ⟨rfl, debuginfo_min_length _ _ _⟩

/-- C10 witness: a zero-width, zero-row terminal; the debug string
" width: 0, height: 0, bars: 0 " has 30 characters, the width 0, and
render_frame panics. -/
theorem render_debug_offset_witness :
    scale_fft_output ℝ []
      (update_size (Visualizer.mk [] 0 0) 0 0).width = some ([] : List ℝ) ∧
    (∀ y, y < (update_size (Visualizer.mk [] 0 0) 0 0).rows.length →
      (fun _ : Nat => true)
        ((update_size (Visualizer.mk [] 0 0) 0 0).height - y - 1) = true) ∧
    (update_size (Visualizer.mk [] 0 0) 0 0).width <
      (debuginfo (update_size (Visualizer.mk [] 0 0) 0 0).width
        (update_size (Visualizer.mk [] 0 0) 0 0).height
        (bar_heights (update_size (Visualizer.mk [] 0 0) 0 0).height
          ([] : List ℝ)).length).length ∧
    (render_frame (fun _ : Nat => true) (Except.ok ()) 0 0
      (Visualizer.mk [] 0 0) []).result = none := by
  have h1 : scale_fft_output ℝ []
      (update_size (Visualizer.mk [] 0 0) 0 0).width = some ([] : List ℝ) := rfl
  have h2 : ∀ y, y < (update_size (Visualizer.mk [] 0 0) 0 0).rows.length →
      (fun _ : Nat => true)
        ((update_size (Visualizer.mk [] 0 0) 0 0).height - y - 1) = true := by
    intro y _
    rfl
  have h3 : (update_size (Visualizer.mk [] 0 0) 0 0).width <
      (debuginfo (update_size (Visualizer.mk [] 0 0) 0 0).width
        (update_size (Visualizer.mk [] 0 0) 0 0).height
        (bar_heights (update_size (Visualizer.mk [] 0 0) 0 0).height
          ([] : List ℝ)).length).length := by decide
  exact ⟨h1, h2, h3, (render_debug_offset_underflow (fun _ : Nat => true)
    (Except.ok ()) 0 0 (Visualizer.mk [] 0 0) [] [] h1 h2 h3).1⟩

end RustyBars
